import Mathlib

/-!
Shallow embedding of the log-ingestion pipeline of `logparse.py`
(class `LogData`: `process_lines`, `read_logs`, `filter_pkgs`,
`write_dataset`, and the module-level `md5` helper), together with
theorems settling the specification claims about it.

Modelling conventions:
* Strings are Lean `String`s; the Python substring operator `in` is
  embedded as `pyIn` over the underlying character lists.
* A log line is embedded together with the outcome of
  `logpattern.match(line)` (the regex engine is external to the
  repository); the semantic conversions the code performs on the
  captured groups (`dateutil` date parsing, `int()`, the package-name
  regexes of lines 119-122) are embedded as executable functions.
* `pandas` frames of parsed rows are embedded as `List Record`;
  frame-level operations (`append`, `sort_values`, `drop_duplicates`,
  `replace(regex=True)`, boolean-mask filtering) are embedded as the
  corresponding list operations.
* The MD5 content fingerprint is embedded as an ideal (collision-free)
  content hash: the file's content itself.
* Python exceptions escaping `process_lines` are embedded with
  `Except PyExc`.
-/

/-- Python's substring test `p in s` for strings (`str.__contains__`),
used by the ignore-hosts check (line 99 `if host in line:`), the
compression check (line 162 `if '.gz' in log:`) and the package filter
(line 189 `df['path'].str.contains('bz2')`, a regex search whose pattern
is a literal, hence a substring test). -/
def pyIn (p : List Char) : List Char → Bool
  | [] => p.isPrefixOf []
  | c :: t => p.isPrefixOf (c :: t) || pyIn p t

/-- Numeric value of a decimal digit character. -/
def charDigit? (c : Char) : Option Nat :=
  if '0' ≤ c ∧ c ≤ '9' then some (c.toNat - '0'.toNat) else none

/-- Accumulate decimal digits; fails on any non-digit character. -/
def pyIntGo (acc : Nat) : List Char → Option Nat
  | [] => some acc
  | c :: t =>
    match charDigit? c with
    | some d => pyIntGo (acc * 10 + d) t
    | none => none

/-- Decimal number denoted by a character list; `none` on the empty list
or on a non-digit, matching Python `int()` raising `ValueError` there. -/
def digitsNat? : List Char → Option Nat
  | [] => none
  | l => pyIntGo 0 l

/-- Python `int()` on a regex capture such as `(?P<size>\d*)`
(line 125 `size = int(match.group('size'))`): the capture is a possibly
empty digit string, and `int('')` raises `ValueError`. -/
def pyInt (s : String) : Option Nat :=
  digitsNat? s.data

/-- Split a character list at `'/'` separators. -/
def splitSlash : List Char → List (List Char)
  | [] => [[]]
  | '/' :: rest => [] :: splitSlash rest
  | c :: rest =>
    match splitSlash rest with
    | [] => [[c]]
    | g :: gs => (c :: g) :: gs

/-- Month number of a three-letter month abbreviation, case-insensitive
as in `dateutil`. -/
def monthNum (m : List Char) : Option Nat :=
  let ml := m.map Char.toLower
  if ml = "jan".data then some 1
  else if ml = "feb".data then some 2
  else if ml = "mar".data then some 3
  else if ml = "apr".data then some 4
  else if ml = "may".data then some 5
  else if ml = "jun".data then some 6
  else if ml = "jul".data then some 7
  else if ml = "aug".data then some 8
  else if ml = "sep".data then some 9
  else if ml = "oct".data then some 10
  else if ml = "nov".data then some 11
  else if ml = "dec".data then some 12
  else none

/-- Gregorian leap-year test. -/
def leapYear (y : Nat) : Bool :=
  y % 4 == 0 && (y % 100 != 0 || y % 400 == 0)

/-- Number of days in a month. -/
def daysInMonth (y m : Nat) : Nat :=
  if m = 2 then (if leapYear y then 29 else 28)
  else if m = 4 ∨ m = 6 ∨ m = 9 ∨ m = 11 then 30
  else 31

/-- A calendar date, the value `dpar.parse` produces for the `date`
capture group. -/
structure Date where
  year : Nat
  month : Nat
  day : Nat
deriving DecidableEq

/-- Models `dateutil.parser.parse` (`dpar.parse`, line 114) on the
`dd/Mon/yyyy` strings the `date` capture group of `logpattern` produces
(`\d{2}/[a-zA-Z]{3}/\d{4}`): day, case-insensitive month abbreviation,
year; an unknown month abbreviation, an out-of-range day, or a year
outside the range of `datetime` raises `ValueError`, embedded as
`none`.  The result is a `datetime.datetime`, whose year is bounded by
`datetime.MINYEAR = 1` (so the capturable year `0000` raises) and
`datetime.MAXYEAR = 9999` (no four-digit capture can exceed it). -/
def dparParse (s : String) : Option Date :=
  match splitSlash s.data with
  | [d, m, y] =>
    match digitsNat? d, monthNum m, digitsNat? y with
    | some dn, some mn, some yn =>
      if 1 ≤ yn ∧ 1 ≤ dn ∧ dn ≤ daysInMonth yn mn then some ⟨yn, mn, dn⟩
      else none
    | _, _, _ => none
  | _ => none

/-- Characters of a string after its last `'/'` (the whole string when
it has no `'/'`). -/
def afterLastSlash (s : List Char) : List Char :=
  (s.reverse.takeWhile (fun c => !(c == '/'))).reverse

/-- Line 121 `tarball = re.sub(patt0, '', path)` with
`patt0 = re.compile('/.*/.*/')`: when the string holds at least three
`'/'` the single leftmost-greedy match spans from the first `'/'` to the
last `'/'` (both `.*` are greedy and may themselves cross `'/'`), so the
substitution deletes that span, leaving the text before the first `'/'`
and the text after the last `'/'`; with fewer than three `'/'` there is
no match and the string is unchanged. -/
def subPatt0 (s : List Char) : List Char :=
  if 3 ≤ (s.filter (fun c => c == '/')).length then
    s.takeWhile (fun c => !(c == '/')) ++ afterLastSlash s
  else s

/-- Line 122 `patt1.match(tarball)` with
`patt1 = re.compile('(?P<simplename>.*)-.*-.*\.tar\.bz2$')`, returning
the `simplename` group: the string must end in `.tar.bz2` and contain at
least two `'-'`; the greedy leading `.*` makes the two separator hyphens
the last two hyphens of the string (`.tar.bz2` itself contains none), so
`simplename` is everything before the second-to-last `'-'`. -/
def patt1SimpleName (t : List Char) : Option (List Char) :=
  if (".tar.bz2".data).isSuffixOf t ∧ 2 ≤ (t.filter (fun c => c == '-')).length then
    let r := t.reverse
    let r1 := (r.dropWhile (fun c => !(c == '-'))).drop 1
    let r2 := (r1.dropWhile (fun c => !(c == '-'))).drop 1
    some r2.reverse
  else none

/-- Package-name extraction of lines 119-123: strip the channel/platform
directories from the request path, then strip the trailing
`-<version>-<build>.tar.bz2` triplet; `none` embeds `namematch` being
`None` (whose `.group` call raises `AttributeError`). -/
def extractName (path : String) : Option String :=
  match patt1SimpleName (subPatt0 path.data) with
  | some cs => some ⟨cs⟩
  | none => none

/-- The named capture groups of `logpattern` (line 34) as strings, as
`match.group(...)` returns them. -/
structure RawFields where
  ipaddress : String
  date : String
  time : String
  path : String
  status : String
  size : String
deriving DecidableEq

/-- Outcome of the `logpattern.match(line)` call (line 105): the call
raises, returns `None`, or returns a match object with the captured
groups. -/
inductive MatchOutcome
  | raises
  | noMatch
  | matched (g : RawFields)
deriving DecidableEq

/-- One (already decoded) log line together with the outcome of
`logpattern.match` on it. -/
structure Line where
  text : String
  matchres : MatchOutcome
deriving DecidableEq

/-- One parsed row of the frame built by `process_lines`
(lines 127-135). -/
structure Record where
  ipaddress : String
  hostname : String
  date : Date
  time : String
  path : String
  status : String
  size : Nat
  name : String
deriving DecidableEq

/-- Python exceptions that can escape `process_lines`:
`UnboundLocalError` (a `NameError`) from the `line_errors += 1` handler,
and `ValueError` from `dpar.parse` or `int()`. -/
inductive PyExc
  | nameError
  | valueError
deriving DecidableEq

/-- The frame `process_lines` returns, together with the `unparseable`
counter it prints. -/
structure Frame where
  records : List Record
  unparseable : Nat
deriving DecidableEq

/-- Lines 96-102: the ignore-hosts scan.  The `continue` at line 100 is
inside the inner `for host in self.ignore_hosts` loop and therefore only
advances that inner loop, so the scan has no effect on the processing of
the line; when `ignore_hosts` is `None` the `for` raises `TypeError`,
which is caught and ignored.  The value computed by the scan (whether
some ignored host occurs in the line) is never consulted by the
surrounding code. -/
def ignoreHostsScan (ignore_hosts : Option (List String)) (line : String) : Bool :=
  match ignore_hosts with
  | none => false
  | some hs => hs.any (fun h => pyIn h.data line.data)

/-- The body of the per-line loop of `process_lines` from line 104 on.
`matchres = raises` reaches the bare `except:` handler of lines 107-110,
whose `line_errors += 1` references the local `line_errors` that is
never initialised in the function, raising `UnboundLocalError` (a
`NameError`) out of `process_lines`.  `matchres = noMatch` makes
`match.group('ipaddress')` (line 112) raise `AttributeError`, caught at
line 136, counting the line as unparseable.  On a match, `dpar.parse`
(line 114) may raise `ValueError`, which no handler catches; a path that
does not encode a package makes `namematch.group` (line 123) raise
`AttributeError`, caught at line 136; `int(match.group('size'))`
(line 125) raises `ValueError` on an empty capture, again uncaught. -/
def processLine (l : Line) : Except PyExc (Option Record) :=
  match l.matchres with
  | .raises => .error .nameError
  | .noMatch => .ok none
  | .matched g =>
    match dparParse g.date with
    | none => .error .valueError
    | some dateobj =>
      match extractName g.path with
      | none => .ok none
      | some name =>
        match pyInt g.size with
        | none => .error .valueError
        | some size =>
          .ok (some { ipaddress := g.ipaddress, hostname := "", date := dateobj,
                      time := g.time, path := g.path, status := g.status,
                      size := size, name := name })

/-- `LogData.process_lines` (lines 88-139): builds the frame of parsed
rows and the `unparseable` count for one file, processing lines in
order; an uncaught per-line exception aborts the whole call (the frame
built so far is lost). -/
def process_lines (ignore_hosts : Option (List String)) : List Line → Except PyExc Frame
  | [] => .ok { records := [], unparseable := 0 }
  | l :: rest =>
    let _scan := ignoreHostsScan ignore_hosts l.text
    match processLine l with
    | .error e => .error e
    | .ok none =>
      (process_lines ignore_hosts rest).map
        (fun fr => { fr with unparseable := fr.unparseable + 1 })
    | .ok (some r) =>
      (process_lines ignore_hosts rest).map
        (fun fr => { fr with records := r :: fr.records })

/-- The legacy channel substring of line 180, as characters. -/
def condaPat : List Char := "/conda-dev".data

/-- Its replacement, as characters. -/
def astroRep : List Char := "/astroconda-dev".data

/-- Fuel-driven scan of `re.sub('/conda-dev', '/astroconda-dev', s)`:
replace every non-overlapping occurrence left to right, resuming after
the replaced span.  The fuel (initially the length of the input) only
makes the recursion structural; it never runs out. -/
def condaSubGo : Nat → List Char → List Char
  | 0, s => s
  | _ + 1, [] => []
  | fuel + 1, c :: rest =>
    if condaPat.isPrefixOf (c :: rest) then
      astroRep ++ condaSubGo fuel (rest.drop (condaPat.length - 1))
    else
      c :: condaSubGo fuel rest

/-- String substitution performed cell-wise by line 180
`newdata.replace('/conda-dev', '/astroconda-dev', regex=True)`; the
pattern contains no regex metacharacters, so it is a literal substring
substitution. -/
def condaSub (s : List Char) : List Char :=
  condaSubGo s.length s

/-- Line 180 on one string cell. -/
def normalizeStr (s : String) : String :=
  ⟨condaSub s.data⟩

/-- Line 180 on one row: `DataFrame.replace(regex=True)` applies the
substitution to every string-valued cell and leaves non-string cells
(the datetime `date` and the integer `size`) unchanged. -/
def normalizeRecord (r : Record) : Record :=
  { r with ipaddress := normalizeStr r.ipaddress,
           hostname := normalizeStr r.hostname,
           time := normalizeStr r.time,
           path := normalizeStr r.path,
           status := normalizeStr r.status,
           name := normalizeStr r.name }

/-- `LogData.filter_pkgs` (lines 185-193): keep the rows whose path
contains `'bz2'` and whose status string is `'200'` or `'302'`. -/
def filter_pkgs (df : List Record) : List Record :=
  (df.filter (fun r => pyIn "bz2".data r.path.data)).filter
    (fun r => r.status == "200" || r.status == "302")

/-- Chronological key of a record's parsed date; the encoding is
strictly monotone in (year, month, day) for calendar dates. -/
def dateKey (d : Date) : Nat :=
  d.year * 10000 + d.month * 100 + d.day

/-- The comparison `sort_values(by='date')` sorts by (line 177). -/
def recLe (a b : Record) : Prop :=
  dateKey a.date ≤ dateKey b.date

instance : DecidableRel recLe :=
  fun a b => Nat.decLe (dateKey a.date) (dateKey b.date)

instance : IsTotal Record recLe :=
  ⟨fun a b => Nat.le_total (dateKey a.date) (dateKey b.date)⟩

instance : IsTrans Record recLe :=
  ⟨fun _ _ _ h1 h2 => Nat.le_trans h1 h2⟩

/-- Line 177 `newdata.sort_values(by='date')`: sort the staged batch
ascending by date (the analysis here never depends on the order chosen
among equal dates). -/
def sortRecs (df : List Record) : List Record :=
  List.insertionSort recLe df

/-- Line 178 `newdata.drop_duplicates()` keeping the first occurrence of
each fully equal row; `seen` holds the rows already emitted. -/
def dedupAux (seen : List Record) : List Record → List Record
  | [] => []
  | r :: rest =>
    if r ∈ seen then dedupAux seen rest
    else r :: dedupAux (r :: seen) rest

/-- Line 178 `newdata.drop_duplicates()`. -/
def dedup (df : List Record) : List Record :=
  dedupAux [] df

/-- Lines 176-180: the staged batch is filtered to package downloads,
sorted by date, stripped of exact duplicate rows, and channel-name
normalized, in that order. -/
def mergeBatch (newdata : List Record) : List Record :=
  (dedup (sortRecs (filter_pkgs newdata))).map normalizeRecord

/-- One log file handed to `read_logs`: its (sorted-by) name and its
decoded lines. -/
structure LogFile where
  name : String
  lines : List Line
deriving DecidableEq

/-- An MD5 content digest.  MD5 is collision-resistant for this
purpose (the digest is a deterministic function of the file bytes and
nothing else), so the fingerprint is embedded as the file content
itself, the ideal content hash. -/
def Fingerprint : Type := List Line

instance : DecidableEq Fingerprint :=
  inferInstanceAs (DecidableEq (List Line))

/-- The module-level `md5` helper (lines 24-29): content digest of the
file as stored on disk, chunked reading being an implementation detail
of the digest. -/
def md5 (f : LogFile) : Fingerprint :=
  f.lines

/-- The persisted aggregate `self.dataset` (lines 73-76): the digested
frame and the list of fingerprints of ingested files. -/
structure Dataset where
  records : List Record
  hashes : List Fingerprint
deriving DecidableEq

/-- Line 162 `if '.gz' in log:`: gzip decompression is chosen by a
substring test on the file name. -/
def usesGzip (log : String) : Bool :=
  pyIn ".gz".data log.data

/-- Line 150 `sorted(logs)`: candidate files are processed in
lexicographic filename order. -/
def sortLogs (logs : List LogFile) : List LogFile :=
  List.insertionSort (fun a b => a.name ≤ b.name) logs

/-- The per-file loop of `read_logs` (lines 150-171): skip a file whose
fingerprint is already recorded (lines 153-156); otherwise read it —
through `gzip.open` when the name contains `.gz`, plain `open` otherwise
(lines 162-167), both yielding the same decoded lines here — run
`process_lines`, append the resulting rows to the staged batch
(line 169) and the fingerprint to the hash list (line 171).  An
exception escaping `process_lines` propagates out of `read_logs`. -/
def readLoop (ignore_hosts : Option (List String)) :
    List LogFile → List Fingerprint → Except PyExc (List Record × List Fingerprint)
  | [], hashes => .ok ([], hashes)
  | log :: rest, hashes =>
    if md5 log ∈ hashes then
      readLoop ignore_hosts rest hashes
    else
      match (if usesGzip log.name then process_lines ignore_hosts log.lines
             else process_lines ignore_hosts log.lines) with
      | .error e => .error e
      | .ok df =>
        match readLoop ignore_hosts rest (hashes ++ [md5 log]) with
        | .error e => .error e
        | .ok (newdata, hashes') => .ok (df.records ++ newdata, hashes')

/-- The staged batch of new rows a `read_logs` call accumulates
(`newdata` at line 169), before the filtering of lines 176-180. -/
def staged (ignore_hosts : Option (List String)) (D : Dataset) (logs : List LogFile) :
    List Record :=
  match readLoop ignore_hosts (sortLogs logs) D.hashes with
  | .ok (newdata, _) => newdata
  | .error _ => []

/-- `LogData.read_logs` (lines 141-183): process the not-yet-ingested
files in filename order, and when any rows were staged (line 175),
filter/sort/dedup/normalize them and append them to the existing frame
(lines 176-183).  The fingerprint list is extended for every newly read
file whether or not its rows survive; returns the resulting in-memory
dataset, or the exception that escaped a `process_lines` call. -/
def read_logs (ignore_hosts : Option (List String)) (D : Dataset) (logs : List LogFile) :
    Except PyExc Dataset :=
  match readLoop ignore_hosts (sortLogs logs) D.hashes with
  | .error e => .error e
  | .ok (newdata, hashes') =>
    if newdata = [] then .ok ⟨D.records, hashes'⟩
    else .ok ⟨D.records ++ mergeBatch newdata, hashes'⟩

/-- `LogData.write_dataset` (lines 195-209): `pickle.dump` of the
dataset; pickling a dict of a frame and a list round-trips the value, so
serialization is embedded as the identity on the dataset value. -/
def write_dataset (D : Dataset) : Dataset :=
  D

/-- Loading a previously written dataset (lines 66-76, `pickle.load`):
the inverse of `write_dataset`, again the identity on the value. -/
def load_dataset (D : Dataset) : Dataset :=
  D

theorem isPrefixOf_exists {p s : List Char} (h : p.isPrefixOf s = true) :
    ∃ t, s = p ++ t := by
  induction p generalizing s with
  | nil => exact ⟨s, rfl⟩
  | cons a as ih =>
    cases s with
    | nil => simp [List.isPrefixOf] at h
    | cons b bs =>
      rw [List.isPrefixOf_cons₂, Bool.and_eq_true, beq_iff_eq] at h
      obtain ⟨t, ht⟩ := ih h.2
      exact ⟨t, by rw [h.1, List.cons_append, ht]⟩

theorem isPrefixOf_append_self (p t : List Char) : p.isPrefixOf (p ++ t) = true := by
  induction p with
  | nil => simp
  | cons a as ih => simp [List.isPrefixOf_cons₂, ih]

/-- The tail of the legacy channel pattern, containing no `'/'`. -/
def condaTail : List Char := "conda-dev".data

theorem condaPat_cons : condaPat = '/' :: condaTail := by decide

theorem condaTail_no_slash : ∀ c ∈ condaTail, c ≠ '/' := by decide

theorem condaSubGo_fuel : ∀ n m s, s.length ≤ n → s.length ≤ m →
    condaSubGo n s = condaSubGo m s := by
  intro n
  induction n with
  | zero =>
    intro m s hn _
    have : s = [] := List.length_eq_zero.mp (Nat.le_zero.mp hn)
    subst this
    cases m <;> rfl
  | succ n ih =>
    intro m s hn hm
    cases s with
    | nil => cases m <;> rfl
    | cons c rest =>
      cases m with
      | zero => exact absurd hm (by simp)
      | succ m =>
        by_cases hp : condaPat.isPrefixOf (c :: rest) = true
        · rw [condaSubGo, condaSubGo, if_pos hp, if_pos hp]
          have hlen : (rest.drop (condaPat.length - 1)).length ≤ n := by
            have := List.length_drop (condaPat.length - 1) rest
            simp at hn
            omega
          have hlen' : (rest.drop (condaPat.length - 1)).length ≤ m := by
            have := List.length_drop (condaPat.length - 1) rest
            simp at hm
            omega
          rw [ih _ _ hlen hlen']
        · rw [condaSubGo, condaSubGo, if_neg (by simp [hp]), if_neg (by simp [hp])]
          have hlen : rest.length ≤ n := by simp at hn; omega
          have hlen' : rest.length ≤ m := by simp at hm; omega
          rw [ih _ _ hlen hlen']

theorem condaSub_nil : condaSub [] = [] := rfl

theorem condaSub_cons_neg {c : Char} {rest : List Char}
    (h : condaPat.isPrefixOf (c :: rest) = false) :
    condaSub (c :: rest) = c :: condaSub rest := by
  show condaSubGo (c :: rest).length (c :: rest) = c :: condaSub rest
  rw [List.length_cons, condaSubGo, if_neg (by simp [h])]
  rfl

theorem condaSub_cons_pos (t : List Char) :
    condaSub (condaPat ++ t) = astroRep ++ condaSub t := by
  have hpre : condaPat.isPrefixOf (condaPat ++ t) = true := isPrefixOf_append_self _ _
  show condaSubGo (condaPat ++ t).length (condaPat ++ t) = astroRep ++ condaSub t
  rw [condaPat_cons, List.cons_append, List.length_cons, condaSubGo,
    if_pos (by rw [← List.cons_append, ← condaPat_cons]; exact hpre)]
  have h9 : (condaTail ++ t).drop (condaPat.length - 1) = t := by
    have he : condaPat.length - 1 = condaTail.length := by decide
    rw [he, List.drop_left]
  rw [h9, condaSubGo_fuel (condaTail ++ t).length t.length t (by simp) (Nat.le_refl _)]
  rfl

/-- Whether the legacy channel substring occurs anywhere in the string. -/
def hasPat : List Char → Bool
  | [] => false
  | c :: t => condaPat.isPrefixOf (c :: t) || hasPat t

theorem condaTail_cons : condaTail = 'c' :: "onda-dev".data := by decide

theorem condaPat_isPrefixOf_eq (c : Char) (t : List Char) :
    condaPat.isPrefixOf (c :: t) = (('/' == c) && condaTail.isPrefixOf t) := by
  rw [condaPat_cons, List.isPrefixOf_cons₂]

theorem condaTail_isPrefixOf_eq (c : Char) (t : List Char) :
    condaTail.isPrefixOf (c :: t) = (('c' == c) && ("onda-dev".data).isPrefixOf t) := by
  rw [condaTail_cons, List.isPrefixOf_cons₂]

theorem hasPat_astroRep (u : List Char) : hasPat (astroRep ++ u) = hasPat u := by
  show hasPat ('/' :: 'a' :: 's' :: 't' :: 'r' :: 'o' :: 'c' :: 'o' :: 'n' :: 'd' :: 'a' :: '-' :: 'd' :: 'e' :: 'v' :: u) = hasPat u
  simp +decide [hasPat, condaPat_isPrefixOf_eq, condaTail_isPrefixOf_eq]

theorem prefixNoSlash : ∀ w : List Char, (∀ c ∈ w, c ≠ '/') →
    ∀ v, w.isPrefixOf (condaSub v) = true → w.isPrefixOf v = true := by
  intro w
  induction w with
  | nil => intro _ v _; simp
  | cons a as ih =>
    intro hw v hpre
    cases v with
    | nil => rw [condaSub_nil] at hpre; simp at hpre
    | cons c rest =>
      by_cases hp : condaPat.isPrefixOf (c :: rest) = true
      · obtain ⟨t, ht⟩ := isPrefixOf_exists hp
        rw [ht, condaSub_cons_pos] at hpre
        exfalso
        have ha : a ≠ '/' := hw a (by simp)
        rw [show astroRep ++ condaSub t = '/' :: ("astroconda-dev".data ++ condaSub t) from rfl,
          List.isPrefixOf_cons₂, Bool.and_eq_true, beq_iff_eq] at hpre
        exact ha hpre.1
      · rw [Bool.not_eq_true] at hp
        rw [condaSub_cons_neg hp] at hpre
        rw [List.isPrefixOf_cons₂, Bool.and_eq_true] at hpre ⊢
        exact ⟨hpre.1, ih (fun x hx => hw x (by simp [hx])) rest hpre.2⟩

theorem hasPat_condaSub : ∀ v, hasPat (condaSub v) = false := by
  have H : ∀ n v, v.length ≤ n → hasPat (condaSub v) = false := by
    intro n
    induction n with
    | zero =>
      intro v hv
      have : v = [] := List.length_eq_zero.mp (Nat.le_zero.mp hv)
      subst this; rfl
    | succ n ih =>
      intro v hv
      cases v with
      | nil => rfl
      | cons c rest =>
        by_cases hp : condaPat.isPrefixOf (c :: rest) = true
        · obtain ⟨t, ht⟩ := isPrefixOf_exists hp
          rw [ht, condaSub_cons_pos, hasPat_astroRep]
          apply ih
          have hlen : (c :: rest).length = condaPat.length + t.length := by rw [ht]; simp
          have h10 : condaPat.length = 10 := by decide
          simp only [List.length_cons] at hlen hv
          omega
        · rw [Bool.not_eq_true] at hp
          rw [condaSub_cons_neg hp]
          have h2 : hasPat (condaSub rest) = false := by
            apply ih
            simp only [List.length_cons] at hv
            omega
          have h1 : condaPat.isPrefixOf (c :: condaSub rest) = false := by
            by_contra hx
            rw [Bool.not_eq_false] at hx
            rw [condaPat_isPrefixOf_eq, Bool.and_eq_true] at hx
            have htail : condaTail.isPrefixOf rest = true :=
              prefixNoSlash condaTail condaTail_no_slash rest hx.2
            have : condaPat.isPrefixOf (c :: rest) = true := by
              rw [condaPat_isPrefixOf_eq, hx.1, htail]; rfl
            rw [this] at hp
            exact Bool.noConfusion hp
          show (condaPat.isPrefixOf (c :: condaSub rest) || hasPat (condaSub rest)) = false
          rw [h1, h2]; rfl
  intro v; exact H v.length v (Nat.le_refl _)

theorem condaSub_of_not_hasPat : ∀ v, hasPat v = false → condaSub v = v := by
  have H : ∀ n v, v.length ≤ n → hasPat v = false → condaSub v = v := by
    intro n
    induction n with
    | zero =>
      intro v hv _
      have : v = [] := List.length_eq_zero.mp (Nat.le_zero.mp hv)
      subst this; rfl
    | succ n ih =>
      intro v hv hn
      cases v with
      | nil => rfl
      | cons c rest =>
        have hsplit : (condaPat.isPrefixOf (c :: rest) || hasPat rest) = false := hn
        rw [Bool.or_eq_false_iff] at hsplit
        rw [condaSub_cons_neg hsplit.1,
          ih rest (by simp only [List.length_cons] at hv; omega) hsplit.2]
  intro v; exact H v.length v (Nat.le_refl _)

theorem condaSub_idem (v : List Char) : condaSub (condaSub v) = condaSub v :=
  condaSub_of_not_hasPat (condaSub v) (hasPat_condaSub v)

theorem normalizeStr_idem (s : String) : normalizeStr (normalizeStr s) = normalizeStr s := by
  show (⟨condaSub (⟨condaSub s.data⟩ : String).data⟩ : String) = (⟨condaSub s.data⟩ : String)
  rw [show ((⟨condaSub s.data⟩ : String).data) = condaSub s.data from rfl, condaSub_idem]

theorem normalizeRecord_idem (r : Record) :
    normalizeRecord (normalizeRecord r) = normalizeRecord r := by
  simp [normalizeRecord, normalizeStr_idem]

theorem sortRecs_sorted (df : List Record) : List.Sorted recLe (sortRecs df) :=
  List.sorted_insertionSort recLe df

theorem mem_sortRecs {r : Record} {df : List Record} : r ∈ sortRecs df ↔ r ∈ df :=
  (List.perm_insertionSort recLe df).mem_iff

theorem dedupAux_sublist : ∀ (l seen : List Record), List.Sublist (dedupAux seen l) l := by
  intro l
  induction l with
  | nil => intro seen; exact List.Sublist.refl []
  | cons r rest ih =>
    intro seen
    rw [dedupAux]
    by_cases h : r ∈ seen
    · rw [if_pos h]
      exact (ih seen).trans (List.sublist_cons_self r rest)
    · rw [if_neg h]
      exact (ih (r :: seen)).cons₂ r

theorem dedupAux_mem_of_mem : ∀ (l seen : List Record) (a : Record),
    a ∈ l → a ∈ dedupAux seen l ∨ a ∈ seen := by
  intro l
  induction l with
  | nil => intro seen a ha; cases ha
  | cons r rest ih =>
    intro seen a ha
    rw [dedupAux]
    by_cases h : r ∈ seen
    · rw [if_pos h]
      rcases List.mem_cons.mp ha with rfl | ha'
      · exact Or.inr h
      · exact ih seen a ha'
    · rw [if_neg h]
      rcases List.mem_cons.mp ha with rfl | ha'
      · exact Or.inl (List.mem_cons_self a _)
      · rcases ih (r :: seen) a ha' with hm | hm
        · exact Or.inl (List.mem_cons_of_mem r hm)
        · rcases List.mem_cons.mp hm with rfl | hm'
          · exact Or.inl (List.mem_cons_self a _)
          · exact Or.inr hm'

theorem dedupAux_not_mem_seen : ∀ (l seen : List Record) (a : Record),
    a ∈ dedupAux seen l → a ∉ seen := by
  intro l
  induction l with
  | nil => intro seen a ha; cases ha
  | cons r rest ih =>
    intro seen a ha
    rw [dedupAux] at ha
    by_cases h : r ∈ seen
    · rw [if_pos h] at ha
      exact ih seen a ha
    · rw [if_neg h] at ha
      rcases List.mem_cons.mp ha with rfl | ha'
      · exact h
      · intro hseen
        exact ih (r :: seen) a ha' (List.mem_cons_of_mem r hseen)

theorem dedupAux_nodup : ∀ (l seen : List Record), (dedupAux seen l).Nodup := by
  intro l
  induction l with
  | nil => intro seen; exact List.nodup_nil
  | cons r rest ih =>
    intro seen
    rw [dedupAux]
    by_cases h : r ∈ seen
    · rw [if_pos h]; exact ih seen
    · rw [if_neg h]
      refine List.nodup_cons.mpr ⟨?_, ih (r :: seen)⟩
      intro hmem
      exact dedupAux_not_mem_seen rest (r :: seen) r hmem (List.mem_cons_self r seen)

theorem mem_dedup {a : Record} {l : List Record} (h : a ∈ l) : a ∈ dedup l :=
  (dedupAux_mem_of_mem l [] a h).resolve_right (by simp)

theorem dedup_nodup (l : List Record) : (dedup l).Nodup :=
  dedupAux_nodup l []

theorem dedup_sorted {l : List Record} (h : List.Sorted recLe l) :
    List.Sorted recLe (dedup l) :=
  List.Pairwise.sublist (dedupAux_sublist l []) h

theorem mergeBatch_sorted (nd : List Record) : List.Sorted recLe (mergeBatch nd) := by
  have hs : List.Sorted recLe (dedup (sortRecs (filter_pkgs nd))) :=
    dedup_sorted (sortRecs_sorted (filter_pkgs nd))
  exact List.pairwise_map.mpr (hs.imp (fun h => h))

theorem mergeBatch_nil : mergeBatch [] = [] := rfl

theorem mem_mergeBatch_of_mem {r : Record} {nd : List Record}
    (h : r ∈ filter_pkgs nd) : normalizeRecord r ∈ mergeBatch nd := by
  exact List.mem_map_of_mem normalizeRecord (mem_dedup (mem_sortRecs.mpr h))

theorem readLoop_hashes_ext (hosts : Option (List String)) :
    ∀ (logs : List LogFile) (hashes : List Fingerprint) (nd : List Record)
      (hashes' : List Fingerprint),
    readLoop hosts logs hashes = .ok (nd, hashes') → ∃ ext, hashes' = hashes ++ ext := by
  intro logs
  induction logs with
  | nil =>
    intro hashes nd hashes' h
    rw [readLoop] at h
    cases h
    exact ⟨[], (List.append_nil hashes).symm⟩
  | cons log rest ih =>
    intro hashes nd hashes' h
    rw [readLoop] at h
    by_cases hmem : md5 log ∈ hashes
    · rw [if_pos hmem] at h
      exact ih hashes nd hashes' h
    · rw [if_neg hmem, ite_self] at h
      cases hdf : process_lines hosts log.lines with
      | error e => rw [hdf] at h; cases h
      | ok df =>
        rw [hdf] at h
        cases hrest : readLoop hosts rest (hashes ++ [md5 log]) with
        | error e => rw [hrest] at h; cases h
        | ok p =>
          obtain ⟨nd0, h0⟩ := p
          rw [hrest] at h
          cases h
          obtain ⟨ext, hext⟩ := ih (hashes ++ [md5 log]) nd0 _ hrest
          exact ⟨[md5 log] ++ ext, by rw [hext, List.append_assoc]⟩

theorem readLoop_spec (hosts : Option (List String)) :
    ∀ (logs : List LogFile) (hashes : List Fingerprint) (nd : List Record)
      (hashes' : List Fingerprint),
    readLoop hosts logs hashes = .ok (nd, hashes') → ∀ log ∈ logs,
      md5 log ∈ hashes' ∧ (md5 log ∉ hashes →
        ∃ df, process_lines hosts log.lines = .ok df ∧ ∀ r ∈ df.records, r ∈ nd) := by
  intro logs
  induction logs with
  | nil => intro hashes nd hashes' _ log hlog; cases hlog
  | cons l rest ih =>
    intro hashes nd hashes' h log hlog
    rw [readLoop] at h
    by_cases hmem : md5 l ∈ hashes
    · rw [if_pos hmem] at h
      rcases List.mem_cons.mp hlog with rfl | hlog'
      · obtain ⟨ext, hext⟩ := readLoop_hashes_ext hosts rest hashes nd hashes' h
        refine ⟨by rw [hext]; exact List.mem_append_left ext hmem, ?_⟩
        intro hnot
        exact absurd hmem hnot
      · exact ih hashes nd hashes' h log hlog'
    · rw [if_neg hmem, ite_self] at h
      cases hdf : process_lines hosts l.lines with
      | error e => rw [hdf] at h; cases h
      | ok df =>
        rw [hdf] at h
        cases hrest : readLoop hosts rest (hashes ++ [md5 l]) with
        | error e => rw [hrest] at h; cases h
        | ok p =>
          obtain ⟨nd0, h0⟩ := p
          rw [hrest] at h
          cases h
          obtain ⟨ext, hext⟩ := readLoop_hashes_ext hosts rest (hashes ++ [md5 l]) nd0 _ hrest
          rcases List.mem_cons.mp hlog with rfl | hlog'
          · refine ⟨?_, ?_⟩
            · rw [hext, List.append_assoc]
              exact List.mem_append_right hashes (List.mem_append_left ext (List.mem_singleton.mpr rfl))
            · intro _
              exact ⟨df, hdf, fun r hr => List.mem_append_left nd0 hr⟩
          · have hspec := ih (hashes ++ [md5 l]) nd0 _ hrest log hlog'
            refine ⟨hspec.1, ?_⟩
            intro hnot
            by_cases hdup : md5 log ∈ hashes ++ [md5 l]
            · have heq : md5 log = md5 l := by
                rcases List.mem_append.mp hdup with hx | hx
                · exact absurd hx hnot
                · exact List.mem_singleton.mp hx
              have hlines : log.lines = l.lines := heq
              refine ⟨df, ?_, fun r hr => List.mem_append_left nd0 hr⟩
              rw [hlines]
              exact hdf
            · obtain ⟨df', hdf', hsub⟩ := hspec.2 hdup
              exact ⟨df', hdf', fun r hr => List.mem_append_right df.records (hsub r hr)⟩

theorem mem_sortLogs {f : LogFile} {logs : List LogFile} : f ∈ sortLogs logs ↔ f ∈ logs :=
  (List.perm_insertionSort _ logs).mem_iff

theorem read_logs_records_eq (hosts : Option (List String)) (D : Dataset)
    (logs : List LogFile) (D' : Dataset) (h : read_logs hosts D logs = .ok D') :
    D'.records = D.records ++ mergeBatch (staged hosts D logs) := by
  rw [read_logs] at h
  cases hrl : readLoop hosts (sortLogs logs) D.hashes with
  | error e => rw [hrl] at h; cases h
  | ok p =>
    obtain ⟨nd, hashes'⟩ := p
    rw [hrl] at h
    dsimp only at h
    rw [staged, hrl]
    by_cases hnil : nd = []
    · rw [if_pos hnil] at h
      cases h
      show D.records = D.records ++ mergeBatch nd
      rw [hnil, mergeBatch_nil, List.append_nil]
    · rw [if_neg hnil] at h
      cases h
      rfl

theorem read_logs_readLoop (hosts : Option (List String)) (D : Dataset)
    (logs : List LogFile) (D' : Dataset) (h : read_logs hosts D logs = .ok D') :
    readLoop hosts (sortLogs logs) D.hashes = .ok (staged hosts D logs, D'.hashes) := by
  rw [read_logs] at h
  cases hrl : readLoop hosts (sortLogs logs) D.hashes with
  | error e => rw [hrl] at h; cases h
  | ok p =>
    obtain ⟨nd, hashes'⟩ := p
    rw [hrl] at h
    dsimp only at h
    rw [staged, hrl]
    by_cases hnil : nd = []
    · rw [if_pos hnil] at h
      cases h
      rfl
    · rw [if_neg hnil] at h
      cases h
      rfl

theorem filter_pkgs_mem {r : Record} {l l' : List Record} (h : r ∈ filter_pkgs l)
    (hsub : ∀ x ∈ l, x ∈ l') : r ∈ filter_pkgs l' := by
  rw [filter_pkgs, List.mem_filter, List.mem_filter] at h ⊢
  exact ⟨⟨hsub r h.1.1, h.1.2⟩, h.2⟩

theorem read_logs_hash_recorded (hosts : Option (List String)) (D : Dataset)
    (logs : List LogFile) (D' : Dataset) (log : LogFile)
    (h : read_logs hosts D logs = .ok D') (hm : log ∈ logs) :
    md5 log ∈ D'.hashes :=
  (readLoop_spec hosts (sortLogs logs) D.hashes _ _
    (read_logs_readLoop hosts D logs D' h) log (mem_sortLogs.mpr hm)).1

theorem read_logs_single_skip (hosts : Option (List String)) (D : Dataset)
    (F : LogFile) (hmem : md5 F ∈ D.hashes) :
    read_logs hosts D [F] = .ok D := by
  rw [read_logs, show sortLogs [F] = [F] from rfl, readLoop, if_pos hmem, readLoop]
  rfl

theorem pyIn_append_self (p pre : List Char) : pyIn p (pre ++ p) = true := by
  induction pre with
  | nil =>
    rw [List.nil_append]
    cases p with
    | nil => rfl
    | cons c t =>
      rw [pyIn]
      have hself := isPrefixOf_append_self (c :: t) []
      rw [List.append_nil] at hself
      rw [hself, Bool.true_or]
  | cons c pre ih =>
    rw [List.cons_append, pyIn, ih, Bool.or_true]

/-! Concrete sample data used by the witness and counterexample theorems
below: a well-formed package-download line dated 2019, a record from an
earlier run dated 2020, a line the grammar rejects, a matched line whose
date field defeats the date parser, and a line from a host on the
ignore list. -/

def okFields : RawFields :=
  { ipaddress := "1.2.3.4", date := "01/Jan/2019", time := "00:00:01",
    path := "/astroconda/linux-64/numpy-1.21.0-py39h.tar.bz2", status := "200",
    size := "1024" }

def okLine : Line :=
  { text := "1.2.3.4 - - [01/Jan/2019:00:00:01 +0000] \"GET /astroconda/linux-64/numpy-1.21.0-py39h.tar.bz2 HTTP/1.1\" 200 1024",
    matchres := .matched okFields }

def okRec : Record :=
  { ipaddress := "1.2.3.4", hostname := "", date := ⟨2019, 1, 1⟩, time := "00:00:01",
    path := "/astroconda/linux-64/numpy-1.21.0-py39h.tar.bz2", status := "200",
    size := 1024, name := "numpy" }

def okFile : LogFile :=
  { name := "access.log.1", lines := [okLine] }

def lateRec : Record :=
  { ipaddress := "5.6.7.8", hostname := "", date := ⟨2020, 6, 15⟩, time := "12:00:00",
    path := "/astroconda/linux-64/scipy-1.5.0-py38h.tar.bz2", status := "200",
    size := 2048, name := "scipy" }

def noMatchLine : Line :=
  { text := "this line does not match the access-log grammar",
    matchres := .noMatch }

def badDateFields : RawFields :=
  { ipaddress := "1.2.3.4", date := "01/Xxx/2020", time := "00:00:02",
    path := "/astroconda/linux-64/numpy-1.21.0-py39h.tar.bz2", status := "200",
    size := "1024" }

def badDateLine : Line :=
  { text := "1.2.3.4 - - [01/Xxx/2020:00:00:02 +0000] \"GET /astroconda/linux-64/numpy-1.21.0-py39h.tar.bz2 HTTP/1.1\" 200 1024",
    matchres := .matched badDateFields }

def scannerFields : RawFields :=
  { ipaddress := "193.0.10.1", date := "02/Feb/2019", time := "03:04:05",
    path := "/astroconda/linux-64/pandas-1.0.0-py37h.tar.bz2", status := "200",
    size := "4096" }

def scannerLine : Line :=
  { text := "193.0.10.1 - - [02/Feb/2019:03:04:05 +0000] \"GET /astroconda/linux-64/pandas-1.0.0-py37h.tar.bz2 HTTP/1.1\" 200 4096",
    matchres := .matched scannerFields }

def scannerRec : Record :=
  { ipaddress := "193.0.10.1", hostname := "", date := ⟨2019, 2, 2⟩, time := "03:04:05",
    path := "/astroconda/linux-64/pandas-1.0.0-py37h.tar.bz2", status := "200",
    size := 4096, name := "pandas" }

def raisesLine : Line :=
  { text := "a line on which the regex engine itself fails",
    matchres := .raises }

/-- Claim C2 (code_bug evidence): a line whose text contains a
configured ignore-host substring is NOT skipped: the `continue` at
line 100 only advances the inner `for host` loop, so `process_lines`
still parses the line and emits a record for it, here at the concrete
input of the scanner host `193.0.10.1` appearing both on the ignore list
and in the line. -/
theorem C2_ignored_host_still_recorded :
    ignoreHostsScan (some ["193.0.10.1"]) scannerLine.text = true ∧
    process_lines (some ["193.0.10.1"]) [scannerLine] =
      .ok { records := [scannerRec], unparseable := 0 } :=
  ⟨rfl, rfl⟩

/-- Claim C3 (counterexample): `process_lines` can raise on malformed
line content: a line that matches the grammar but whose date field
`01/Xxx/2020` defeats `dpar.parse` raises `ValueError` (caught nowhere,
only `AttributeError` is), aborting the call instead of incrementing the
error counter and continuing. -/
theorem C3_counterexample :
    process_lines none [badDateLine] = .error .valueError :=
  rfl

/-- Claim C3 (corrected): a grammar mismatch, or a missing-capture
`AttributeError` (a path that is not a package archive), increments the
unparseable counter and processing continues with the next line; but a
failure converting the captured date field (`dpar.parse` raising
`ValueError`) or the captured size field (`int('')`) is not caught:
`process_lines` aborts and returns no frame. -/
theorem C3_parse_error_handling :
    (∀ (hosts : Option (List String)) (l : Line) (rest : List Line),
      l.matchres = .noMatch →
      process_lines hosts (l :: rest) =
        (process_lines hosts rest).map
          (fun fr => { fr with unparseable := fr.unparseable + 1 })) ∧
    (∀ (hosts : Option (List String)) (l : Line) (rest : List Line) (g : RawFields),
      l.matchres = .matched g → dparParse g.date = none →
      process_lines hosts (l :: rest) = .error .valueError) ∧
    (∀ (hosts : Option (List String)) (l : Line) (rest : List Line) (g : RawFields)
      (d : Date), l.matchres = .matched g → dparParse g.date = some d →
      extractName g.path = none →
      process_lines hosts (l :: rest) =
        (process_lines hosts rest).map
          (fun fr => { fr with unparseable := fr.unparseable + 1 })) ∧
    (∀ (hosts : Option (List String)) (l : Line) (rest : List Line) (g : RawFields)
      (d : Date) (nm : String), l.matchres = .matched g → dparParse g.date = some d →
      extractName g.path = some nm → pyInt g.size = none →
      process_lines hosts (l :: rest) = .error .valueError) := by
  refine ⟨?_, ?_, ?_, ?_⟩
  · intro hosts l rest hm
    have hpl : processLine l = .ok none := by
      simp only [processLine, hm]
    simp only [process_lines, hpl]
  · intro hosts l rest g hm hd
    have hpl : processLine l = .error .valueError := by
      simp only [processLine, hm, hd]
    simp only [process_lines, hpl]
  · intro hosts l rest g d hm hd hn
    have hpl : processLine l = .ok none := by
      simp only [processLine, hm, hd, hn]
    simp only [process_lines, hpl]
  · intro hosts l rest g d nm hm hd hn hs
    have hpl : processLine l = .error .valueError := by
      simp only [processLine, hm, hd, hn, hs]
    simp only [process_lines, hpl]

/-- Claim C3 (witness): the corrected statement at concrete inputs: a
non-matching line is counted and processing continues; the bad-date line
aborts the call with `ValueError`. -/
theorem C3_parse_error_handling_witness :
    process_lines none [noMatchLine] =
      (process_lines none []).map
        (fun fr => { fr with unparseable := fr.unparseable + 1 }) ∧
    process_lines none (badDateLine :: [okLine]) = .error .valueError :=
  ⟨C3_parse_error_handling.1 none noMatchLine [] rfl,
   C3_parse_error_handling.2.1 none badDateLine [okLine] badDateFields rfl rfl⟩

/-- Claim C7: channel normalization as performed on every stored record
(the merged batch of lines 176-182 is exactly the
filter/sort/dedup image mapped through `normalizeRecord`), it rewrites
the legacy `/conda-dev` channel segment to `/astroconda-dev`, and it is
idempotent on every record value. -/
theorem C7_channel_normalization :
    (∀ r : Record, normalizeRecord (normalizeRecord r) = normalizeRecord r) ∧
    (∀ nd : List Record,
      mergeBatch nd = (dedup (sortRecs (filter_pkgs nd))).map normalizeRecord) ∧
    normalizeStr "/chan/conda-dev/linux-64/pkg-1.0-py_0.tar.bz2" =
      "/chan/astroconda-dev/linux-64/pkg-1.0-py_0.tar.bz2" :=
  ⟨normalizeRecord_idem, fun _ => rfl, rfl⟩

/-- Claim C8: package-name extraction anchors on the trailing
`-<version>-<build>.tar.bz2` suffix read right-to-left, so hyphenated
names are preserved: the two concrete paths of the claim extract to
`numpy` and `numpy-base`. -/
theorem C8_name_extraction :
    extractName "/chan/linux-64/numpy-1.21.0-py39h.tar.bz2" = some "numpy" ∧
    extractName "/chan/linux-64/numpy-base-1.21.0-py39h.tar.bz2" = some "numpy-base" :=
  ⟨rfl, rfl⟩

/-- Claim C9 (counterexample): the reader's compression test of line 162
is a substring test, not a suffix test: the plain-text name
`access.gz.old` does not end in `.gz`, yet the code selects gzip
decompression for it. -/
theorem C9_counterexample :
    usesGzip "access.gz.old" = true ∧
    (".gz".data).isSuffixOf "access.gz.old".data = false :=
  ⟨rfl, rfl⟩

/-- Claim C9 (corrected): gzip decompression is applied exactly when the
filename contains `.gz` anywhere (the substring test of line 162); in
particular every filename that does end in `.gz` is decompressed. -/
theorem C9_gzip_on_suffix (log : String)
    (h : (".gz".data).isSuffixOf log.data = true) :
    usesGzip log = true := by
  rw [List.isSuffixOf] at h
  obtain ⟨t, ht⟩ := isPrefixOf_exists h
  have hrw : log.data = t.reverse ++ ".gz".data := by
    have hc := congrArg List.reverse ht
    simpa using hc
  rw [usesGzip, hrw]
  exact pyIn_append_self _ _

/-- Claim C9 (witness): a genuinely gzip-compressed rotated log name is
decompressed. -/
theorem C9_gzip_on_suffix_witness : usesGzip "pkgs.access.log.gz" = true :=
  C9_gzip_on_suffix "pkgs.access.log.gz" rfl

/-- Claim C10: if the `logpattern.match` call raises for some line, the
recovery branch of lines 107-110 itself fails: `line_errors += 1` reads
the never-initialised local `line_errors`, raising `UnboundLocalError`
(a `NameError`) out of `process_lines`, aborting the file instead of
counting the error and continuing. -/
theorem C10_match_raise_aborts (hosts : Option (List String)) (l : Line)
    (rest : List Line) (h : l.matchres = .raises) :
    process_lines hosts (l :: rest) = .error .nameError := by
  have hpl : processLine l = .error .nameError := by
    simp only [processLine, h]
  simp only [process_lines, hpl]

/-- Claim C10 (witness): the abort at a concrete line. -/
theorem C10_match_raise_aborts_witness :
    process_lines none (raisesLine :: [okLine]) = .error .nameError :=
  C10_match_raise_aborts none raisesLine [okLine] rfl

def C1prior : Dataset := ⟨[lateRec], []⟩

def C1result : Dataset := ⟨[lateRec, okRec], [md5 okFile]⟩

/-- Claim C1 (counterexample): a prior dataset sorted by date (one 2020
record) plus a non-empty batch (one well-formed 2019 download) is merged
by `read_logs` into a table that is NOT globally ascending by date: only
the new batch is sorted, it is then appended after the existing rows. -/
theorem C1_counterexample :
    read_logs none C1prior [okFile] = .ok C1result ∧
    List.Sorted recLe C1prior.records ∧
    ¬ List.Sorted recLe C1result.records :=
  ⟨rfl, by decide, by decide⟩

/-- Claim C1 (corrected): after a successful `read_logs` the records
table is the prior records followed by the merged batch; the batch
itself is sorted ascending by date, so the whole table is sorted
whenever the prior table is empty (it need not be otherwise). -/
theorem C1_batch_sorted_appended (hosts : Option (List String)) (D : Dataset)
    (logs : List LogFile) (D' : Dataset) (h : read_logs hosts D logs = .ok D') :
    D'.records = D.records ++ mergeBatch (staged hosts D logs) ∧
    List.Sorted recLe (mergeBatch (staged hosts D logs)) ∧
    (D.records = [] → List.Sorted recLe D'.records) := by
  refine ⟨read_logs_records_eq hosts D logs D' h, mergeBatch_sorted _, ?_⟩
  intro hempty
  rw [read_logs_records_eq hosts D logs D' h, hempty, List.nil_append]
  exact mergeBatch_sorted _

def C1wresult : Dataset := ⟨[okRec], [md5 okFile]⟩

/-- Claim C1 (witness): the corrected statement at a concrete ingestion
into an empty dataset. -/
theorem C1_batch_sorted_appended_witness :
    C1wresult.records =
      (⟨[], []⟩ : Dataset).records ++ mergeBatch (staged none ⟨[], []⟩ [okFile]) ∧
    List.Sorted recLe C1wresult.records :=
  ⟨(C1_batch_sorted_appended none ⟨[], []⟩ [okFile] C1wresult rfl).1,
   (C1_batch_sorted_appended none ⟨[], []⟩ [okFile] C1wresult rfl).2.2 rfl⟩

/-- Claim C4: for every successful ingestion and every newly read file,
the dataset returned by `read_logs` holds both the file's fingerprint
and (the normalized image of) every surviving — package-filtered —
record of that file: the fingerprint is never present in the resulting
state without the file's contribution. -/
theorem C4_fingerprint_after_merge (hosts : Option (List String)) (D : Dataset)
    (logs : List LogFile) (D' : Dataset) (log : LogFile) (df : Frame)
    (h : read_logs hosts D logs = .ok D') (hm : log ∈ logs)
    (hnew : md5 log ∉ D.hashes) (hdf : process_lines hosts log.lines = .ok df) :
    md5 log ∈ D'.hashes ∧
    ∀ r ∈ filter_pkgs df.records, normalizeRecord r ∈ D'.records := by
  have hrl := read_logs_readLoop hosts D logs D' h
  have hspec := readLoop_spec hosts (sortLogs logs) D.hashes _ _ hrl log
    (mem_sortLogs.mpr hm)
  refine ⟨hspec.1, ?_⟩
  obtain ⟨df', hdf', hsub⟩ := hspec.2 hnew
  rw [hdf] at hdf'
  cases hdf'
  intro r hr
  rw [read_logs_records_eq hosts D logs D' h]
  exact List.mem_append_right _ (mem_mergeBatch_of_mem (filter_pkgs_mem hr hsub))

def C4result : Dataset := ⟨[okRec], [md5 okFile]⟩

/-- Claim C4 (witness): at a concrete single-file ingestion, the file's
fingerprint and its surviving record are both in the resulting
dataset. -/
theorem C4_fingerprint_after_merge_witness :
    md5 okFile ∈ C4result.hashes ∧ normalizeRecord okRec ∈ C4result.records :=
  ⟨(C4_fingerprint_after_merge none ⟨[], []⟩ [okFile] C4result okFile ⟨[okRec], 0⟩ rfl
      (List.mem_singleton.mpr rfl) (List.not_mem_nil _) rfl).1,
   (C4_fingerprint_after_merge none ⟨[], []⟩ [okFile] C4result okFile ⟨[okRec], 0⟩ rfl
      (List.mem_singleton.mpr rfl) (List.not_mem_nil _) rfl).2 okRec (by decide)⟩

/-- Claim C5: ingestion is idempotent per file across runs: after a
successful run ingesting file `F` and persisting the result, running
`read_logs` again on `F` against the persisted dataset detects `F`'s
content hash in the ingested list, skips the file, and returns the
dataset unchanged. -/
theorem C5_reingest_idempotent (hosts : Option (List String)) (D D1 : Dataset)
    (F : LogFile) (h1 : read_logs hosts D [F] = .ok D1) :
    read_logs hosts (load_dataset (write_dataset D1)) [F] = .ok D1 := by
  have hmem : md5 F ∈ D1.hashes :=
    read_logs_hash_recorded hosts D [F] D1 F h1 (List.mem_singleton.mpr rfl)
  exact read_logs_single_skip hosts D1 F hmem

def C5result : Dataset := ⟨[okRec], [md5 okFile]⟩

/-- Claim C5 (witness): the idempotence at a concrete file ingested into
an empty dataset, persisted, and offered again. -/
theorem C5_reingest_idempotent_witness :
    read_logs none (load_dataset (write_dataset C5result)) [okFile] = .ok C5result :=
  C5_reingest_idempotent none ⟨[], []⟩ C5result okFile rfl

def C6D1 : Dataset := ⟨[okRec], [md5 okFile]⟩

def C6fileB : LogFile := ⟨"access.log.2", [noMatchLine, okLine]⟩

def C6D2 : Dataset := ⟨[okRec, okRec], [md5 okFile, md5 C6fileB]⟩

/-- Claim C6 (counterexample): two runs, each ingesting a different file
(different content, hence different fingerprints) that contributes the
same surviving record, leave the dataset with two byte-for-byte equal
records: deduplication is applied within the newly staged batch only,
never between the batch and the existing rows. -/
theorem C6_counterexample :
    read_logs none (⟨[], []⟩ : Dataset) [okFile] = .ok C6D1 ∧
    read_logs none C6D1 [C6fileB] = .ok C6D2 ∧
    ¬ C6D2.records.Nodup :=
  ⟨rfl, rfl, by decide⟩

/-- Claim C6 (corrected): within a single successful ingestion the
staged batch is exact-duplicate-free at the `drop_duplicates` stage
(before channel normalization), and is then appended after the existing
records; no deduplication is performed between the new batch and the
records of earlier runs. -/
theorem C6_batch_dedup (hosts : Option (List String)) (D : Dataset)
    (logs : List LogFile) (D' : Dataset) (h : read_logs hosts D logs = .ok D') :
    D'.records = D.records ++ mergeBatch (staged hosts D logs) ∧
    (dedup (sortRecs (filter_pkgs (staged hosts D logs)))).Nodup :=
  ⟨read_logs_records_eq hosts D logs D' h, dedup_nodup _⟩

/-- Claim C6 (witness): the corrected statement at the concrete second
run of the counterexample scenario. -/
theorem C6_batch_dedup_witness :
    C6D2.records = C6D1.records ++ mergeBatch (staged none C6D1 [C6fileB]) ∧
    (dedup (sortRecs (filter_pkgs (staged none C6D1 [C6fileB])))).Nodup :=
  C6_batch_dedup none C6D1 [C6fileB] C6D2 rfl
